import Mathlib

/-!
Verification development for the transparent-fund SDK core:
the fixed-point numeric model (src/sdk/lib/numbers.py), the position
aggregation algebra (src/sdk/base/readers/structs.py), the lazy price
resolution engine (src/sdk/base/readers/prices/lazy_resolver.py) and the
aggregator conveniences (src/sdk/base/readers/aggregator/aggregator.py).

Python integers are modelled as Int, decimal scales as Nat, Python floor
division (the // operator) as Int.fdiv, and Python dictionaries as partial
maps (Option valued functions) or association lists where the code has to
iterate over them.  Fallible operations (Python exceptions) return Option
or an explicit error-carrying result type.
-/

namespace SDKSpec

/-- Fixed-point number from src/sdk/lib/numbers.py: an arbitrary precision
integer `value` together with a separately tracked decimal scale
`decimals`, representing value * 10 ^ (-decimals). -/
structure Number where
  value : Int := 0
  decimals : Nat := 0
deriving DecidableEq, Repr

/-- The quotient selected by the Python builtin round when rounding an
integer v to a multiple of 10 ^ k: the nearest multiple is pyRoundQ v k
times 10 ^ k, with ties broken toward the even quotient (round half to
even, as documented for the builtin). -/
def pyRoundQ (v : Int) (k : Nat) : Int :=
  if 2 * (v % 10 ^ k) < 10 ^ k then v / 10 ^ k
  else if (10:Int) ^ k < 2 * (v % 10 ^ k) then v / 10 ^ k + 1
  else if (v / 10 ^ k) % 2 = 0 then v / 10 ^ k else v / 10 ^ k + 1

/-- Models the Python builtin round applied to an integer with a
non-positive ndigits argument: round(v, -k) is the multiple of 10 ^ k
nearest to v, with ties broken toward the even multiple. -/
def pyRound (v : Int) (k : Nat) : Int :=
  pyRoundQ v k * 10 ^ k

/-- Number.set_decimals from src/sdk/lib/numbers.py.  Scaling down rounds
the value to a multiple of 10 ^ (decimals - target) with the Python
builtin round and then divides exactly; scaling up multiplies exactly.
The Python method mutates in place and returns self; it is modelled
functionally. -/
def Number.set_decimals (n : Number) (target : Nat) : Number :=
  if target ≤ n.decimals then
    { value := Int.fdiv (pyRound n.value (n.decimals - target))
               (10 ^ (n.decimals - target)),
      decimals := target }
  else
    { value := n.value * 10 ^ (target - n.decimals), decimals := target }

/-- The private Number.__add helper (used by both __iadd__ and __isub__):
the operand with the lower scale is scaled up to the higher scale, then the
aligned integer values are added.  Number.__add__ copies and delegates
here, so this is also the binary + on Numbers. -/
def Number.add (a b : Number) : Number :=
  if b.decimals ≤ a.decimals then
    { value := a.value + b.value * 10 ^ (a.decimals - b.decimals),
      decimals := a.decimals }
  else
    { value := a.value * 10 ^ (b.decimals - a.decimals) + b.value,
      decimals := b.decimals }

/-- Number.__imul__ (and __mul__, which copies then delegates): the result
keeps the decimals of the first operand and its value is
self.value * other.value // 10 ** other.decimals, with // the Python floor
division (Int.fdiv). -/
def Number.mul (a b : Number) : Number :=
  { value := Int.fdiv (a.value * b.value) (10 ^ b.decimals),
    decimals := a.decimals }

/-- Number.__floordiv__: a fresh Number with the decimals of the first
operand and value self.value * 10 ** other.decimals // other.value.  When
other.value is zero Python raises ZeroDivisionError, modelled as none. -/
def Number.floordiv (a b : Number) : Option Number :=
  if b.value = 0 then none
  else some { value := Int.fdiv (a.value * 10 ^ b.decimals) b.value,
              decimals := a.decimals }

/-- LongShortNumbers from src/sdk/lib/numbers.py: the Directional Position
triple of net, long and short exposures, each defaulting to the zero
Number. -/
structure LongShortNumbers where
  net : Number := {}
  long : Number := {}
  short : Number := {}
deriving DecidableEq, Repr

/-- The default LongShortNumbers() value: all three components zero. -/
def LongShortNumbers.zero : LongShortNumbers := {}

/-- LongShortNumbers.__iadd__ (and __add__, which deep-copies then
delegates): componentwise Number addition. -/
def LongShortNumbers.add (x y : LongShortNumbers) : LongShortNumbers :=
  { net := x.net.add y.net, long := x.long.add y.long,
    short := x.short.add y.short }

/-- PositionsDict from src/sdk/base/readers/structs.py: a dictionary from
symbols to LongShortNumbers, modelled as a partial map.  Python dict
equality ignores insertion order and compares values structurally, which
matches function extensionality on this model. -/
def PositionsDict (σ : Type) : Type := σ → Option LongShortNumbers

/-- PositionsDict.get: a missing key reads as the zero Directional
Position (the overridden get with default LongShortNumbers()). -/
def PositionsDict.get {σ : Type} (d : PositionsDict σ) (s : σ) :
    LongShortNumbers :=
  (d s).getD LongShortNumbers.zero

/-- The empty PositionsDict(). -/
def PositionsDict.empty {σ : Type} : PositionsDict σ := fun _ => none

/-- PositionsDict.__iadd__ (and __add__, which copies then delegates): for
every symbol present in the right-hand side, add its Directional Position
into the left-hand entry, creating the entry from the zero default when it
is absent; symbols absent from the right-hand side are untouched. -/
def PositionsDict.add {σ : Type} (x y : PositionsDict σ) : PositionsDict σ :=
  fun s =>
    match y s with
    | some amt => some ((x.get s).add amt)
    | none => x s

/-! Algebraic facts about Number addition. -/

/-- Number.add always aligns both operands to the maximum of the two
scales and adds the aligned values. -/
theorem Number.add_eq_scaled (a b : Number) :
    a.add b =
      { value := a.value * 10 ^ (max a.decimals b.decimals - a.decimals)
                 + b.value * 10 ^ (max a.decimals b.decimals - b.decimals),
        decimals := max a.decimals b.decimals } := by
  unfold Number.add
  rcases le_or_lt b.decimals a.decimals with h | h
  · rw [if_pos h]
    have hm : max a.decimals b.decimals = a.decimals := Nat.max_eq_left h
    simp [hm]
  · rw [if_neg (Nat.not_le.mpr h)]
    have hm : max a.decimals b.decimals = b.decimals := Nat.max_eq_right h.le
    simp [hm]

theorem Number.add_commutative (a b : Number) : a.add b = b.add a := by
  rw [Number.add_eq_scaled, Number.add_eq_scaled]
  simp only [Number.mk.injEq]
  exact ⟨by rw [Nat.max_comm b.decimals a.decimals]; ring,
         Nat.max_comm a.decimals b.decimals⟩

/-- Collapsing two consecutive rescalings by powers of ten. -/
theorem pow_ten_collapse (x : Int) {p q r : Nat} (h : p + q = r) :
    x * 10 ^ p * 10 ^ q = x * 10 ^ r := by
  subst h
  rw [pow_add, mul_assoc]

theorem Number.add_associative (a b c : Number) :
    (a.add b).add c = a.add (b.add c) := by
  rcases a with ⟨av, da⟩; rcases b with ⟨bv, db⟩; rcases c with ⟨cv, dc⟩
  rw [Number.add_eq_scaled ⟨av, da⟩ ⟨bv, db⟩,
      Number.add_eq_scaled ⟨bv, db⟩ ⟨cv, dc⟩,
      Number.add_eq_scaled, Number.add_eq_scaled]
  simp only [Number.mk.injEq]
  refine ⟨?_, Nat.max_assoc da db dc⟩
  rw [Nat.max_assoc da db dc, add_mul, add_mul]
  rw [pow_ten_collapse av (p := max da db - da)
        (q := max da (max db dc) - max da db)
        (r := max da (max db dc) - da) (by omega),
      pow_ten_collapse bv (p := max da db - db)
        (q := max da (max db dc) - max da db)
        (r := max da (max db dc) - db) (by omega),
      pow_ten_collapse bv (p := max db dc - db)
        (q := max da (max db dc) - max db dc)
        (r := max da (max db dc) - db) (by omega),
      pow_ten_collapse cv (p := max db dc - dc)
        (q := max da (max db dc) - max db dc)
        (r := max da (max db dc) - dc) (by omega)]
  ring

/-- Adding the default Number() on the left is the identity. -/
theorem Number.default_add (b : Number) : Number.add {} b = b := by
  rcases b with ⟨v, d⟩
  unfold Number.add
  rcases Nat.eq_zero_or_pos d with h | h
  · subst h; simp
  · rw [if_neg]
    · simp
    · simpa using Nat.not_le.mpr h

/-- Adding the default Number() on the right is the identity. -/
theorem Number.add_default (a : Number) : a.add {} = a := by
  rcases a with ⟨v, d⟩
  unfold Number.add
  simp

/-! Algebraic facts about Directional Position addition. -/

theorem LongShortNumbers.add_comm_components (x y : LongShortNumbers) :
    x.add y = y.add x := by
  simp [LongShortNumbers.add, Number.add_commutative x.net,
        Number.add_commutative x.long, Number.add_commutative x.short]

theorem LongShortNumbers.add_assoc_components (x y z : LongShortNumbers) :
    (x.add y).add z = x.add (y.add z) := by
  simp [LongShortNumbers.add, Number.add_associative]

theorem LongShortNumbers.zero_add_id (x : LongShortNumbers) :
    LongShortNumbers.zero.add x = x := by
  rcases x with ⟨n, l, s⟩
  simp [LongShortNumbers.add, LongShortNumbers.zero, Number.default_add]

theorem LongShortNumbers.add_zero_id (x : LongShortNumbers) :
    x.add LongShortNumbers.zero = x := by
  rcases x with ⟨n, l, s⟩
  simp [LongShortNumbers.add, LongShortNumbers.zero, Number.add_default]

/-! Algebraic facts about Position Ledger merge. -/

theorem PositionsDict.add_empty {σ : Type} (x : PositionsDict σ) :
    x.add PositionsDict.empty = x := by
  funext s
  simp [PositionsDict.add, PositionsDict.empty]

theorem PositionsDict.empty_add {σ : Type} (x : PositionsDict σ) :
    PositionsDict.empty.add x = x := by
  funext s
  unfold PositionsDict.add
  cases hx : x s with
  | none => simp [PositionsDict.empty]
  | some a =>
      simp [PositionsDict.get, PositionsDict.empty,
            LongShortNumbers.zero_add_id]

theorem PositionsDict.merge_commutative {σ : Type} (x y : PositionsDict σ) :
    x.add y = y.add x := by
  funext s
  unfold PositionsDict.add PositionsDict.get
  cases hx : x s with
  | none =>
      cases hy : y s with
      | none => simp
      | some b => simp [LongShortNumbers.zero_add_id, LongShortNumbers.add_zero_id]
  | some a =>
      cases hy : y s with
      | none => simp [LongShortNumbers.zero_add_id, LongShortNumbers.add_zero_id]
      | some b => simp [LongShortNumbers.add_comm_components a b]

theorem PositionsDict.merge_associative {σ : Type} (x y z : PositionsDict σ) :
    (x.add y).add z = x.add (y.add z) := by
  funext s
  unfold PositionsDict.add PositionsDict.get
  cases hz : z s with
  | none =>
      cases hy : y s with
      | none => simp [hy]
      | some b => simp [hy]
  | some c =>
      cases hy : y s with
      | none =>
          cases hx : x s with
          | none => simp [hy, hx, LongShortNumbers.zero_add_id]
          | some a => simp [hy, hx, LongShortNumbers.zero_add_id]
      | some b =>
          cases hx : x s with
          | none => simp [hy, hx, LongShortNumbers.zero_add_id,
                          LongShortNumbers.add_assoc_components]
          | some a => simp [hy, hx, LongShortNumbers.add_assoc_components]

instance {σ : Type} : Zero (PositionsDict σ) :=
  ⟨PositionsDict.empty⟩

instance {σ : Type} : Add (PositionsDict σ) :=
  ⟨PositionsDict.add⟩

instance {σ : Type} : AddCommMonoid (PositionsDict σ) where
  add_assoc := PositionsDict.merge_associative
  zero_add := PositionsDict.empty_add
  add_zero := PositionsDict.add_empty
  add_comm := PositionsDict.merge_commutative
  nsmul := nsmulRec
  nsmul_zero := fun _ => rfl
  nsmul_succ := fun _ _ => rfl

/-- The monoid addition on PositionsDict is definitionally the merge. -/
theorem PositionsDict.hAdd_eq {σ : Type} (x y : PositionsDict σ) :
    x + y = x.add y := rfl

/-- The monoid zero on PositionsDict is definitionally the empty dict. -/
theorem PositionsDict.zero_eq {σ : Type} :
    (0 : PositionsDict σ) = PositionsDict.empty := rfl

/-! Facts about the rounding helper and set_decimals. -/

/-- The quotient chosen by pyRoundQ is at most half a divisor away from
the dividend (so the chosen multiple is a nearest one), and whenever the
distance is exactly half a divisor the chosen quotient is even. -/
theorem pyRoundQ_char (v : Int) (k : Nat) :
    2 * (v - pyRoundQ v k * 10 ^ k) ≤ 10 ^ k ∧
    -(10 ^ k : Int) ≤ 2 * (v - pyRoundQ v k * 10 ^ k) ∧
    ((2 * (v - pyRoundQ v k * 10 ^ k) = 10 ^ k ∨
      2 * (v - pyRoundQ v k * 10 ^ k) = -(10 ^ k : Int)) →
      pyRoundQ v k % 2 = 0) := by
  have hm : (0:Int) < 10 ^ k := by positivity
  have hv : 10 ^ k * (v / 10 ^ k) + v % 10 ^ k = v := Int.ediv_add_emod v _
  have hr0 : 0 ≤ v % 10 ^ k := Int.emod_nonneg v (ne_of_gt hm)
  have hrm : v % 10 ^ k < 10 ^ k := Int.emod_lt_of_pos v hm
  have e1 : v - v / 10 ^ k * 10 ^ k = v % 10 ^ k := by linear_combination -hv
  have e2 : v - (v / 10 ^ k + 1) * 10 ^ k = v % 10 ^ k - 10 ^ k := by
    linear_combination -hv
  unfold pyRoundQ
  split_ifs with h1 h2 h3
  · rw [e1]
    refine ⟨by omega, by omega, fun hc => ?_⟩
    rcases hc with hc | hc <;> omega
  · rw [e2]
    refine ⟨by omega, by omega, fun hc => ?_⟩
    rcases hc with hc | hc <;> omega
  · rw [e1]
    refine ⟨by omega, by omega, fun _ => h3⟩
  · rw [e2]
    refine ⟨by omega, by omega, fun _ => by omega⟩

/-- Rounding an exact multiple of 10 ^ k to a multiple of 10 ^ k keeps the
quotient unchanged. -/
theorem pyRoundQ_exact (v : Int) (k : Nat) : pyRoundQ (v * 10 ^ k) k = v := by
  have hm : (0:Int) < 10 ^ k := by positivity
  unfold pyRoundQ
  rw [Int.mul_emod_left, Int.mul_ediv_cancel _ (ne_of_gt hm)]
  rw [if_pos (by rw [mul_zero]; exact hm)]

/-- The scale after set_decimals is always the target. -/
theorem Number.set_decimals_decimals (n : Number) (t : Nat) :
    (n.set_decimals t).decimals = t := by
  unfold Number.set_decimals
  split_ifs <;> rfl

/-- When scaling down (or staying), the resulting value is the quotient
chosen by the Python builtin round. -/
theorem Number.set_decimals_down_value (n : Number) (t : Nat)
    (h : t ≤ n.decimals) :
    (n.set_decimals t).value = pyRoundQ n.value (n.decimals - t) := by
  have hm : (0:Int) < 10 ^ (n.decimals - t) := by positivity
  unfold Number.set_decimals pyRound
  rw [if_pos h]
  show Int.fdiv (pyRoundQ n.value (n.decimals - t) * 10 ^ (n.decimals - t))
      (10 ^ (n.decimals - t)) = _
  rw [Int.fdiv_eq_ediv _ (le_of_lt hm), Int.mul_ediv_cancel _ (ne_of_gt hm)]

/-- Rescaling to the current scale is the identity. -/
theorem Number.set_decimals_self (n : Number) :
    n.set_decimals n.decimals = n := by
  rcases n with ⟨v, d⟩
  have h1 : (Number.mk v d).set_decimals d =
      { value := pyRoundQ v (d - d), decimals := d } := by
    rw [Number.mk.injEq]
    exact ⟨Number.set_decimals_down_value ⟨v, d⟩ d le_rfl,
           Number.set_decimals_decimals ⟨v, d⟩ d⟩
  rw [h1, Nat.sub_self]
  unfold pyRoundQ
  norm_num [Int.emod_one, Int.ediv_one]

/-- C4: Position Ledger merge is a commutative monoid: merge is
associative and commutative with the empty ledger as a two-sided
identity, and reading a missing symbol from a ledger yields the zero
Directional Position. -/
theorem c4_position_ledger_comm_monoid {σ : Type}
    (X Y Z : PositionsDict σ) (s : σ) (h : X s = none) :
    (X.add Y).add Z = X.add (Y.add Z) ∧
    X.add PositionsDict.empty = X ∧
    PositionsDict.empty.add X = X ∧
    X.add Y = Y.add X ∧
    X.get s = LongShortNumbers.zero := by
  refine ⟨PositionsDict.merge_associative X Y Z, PositionsDict.add_empty X,
          PositionsDict.empty_add X, PositionsDict.merge_commutative X Y, ?_⟩
  unfold PositionsDict.get
  rw [h]
  rfl

/-- Witness for C4 at concrete ledgers over String symbols. -/
theorem c4_witness :
    (let X : PositionsDict String :=
       fun s => if s = "X" then some { net := { value := 10 } } else none
     let Y : PositionsDict String :=
       fun s => if s = "X" then some { net := { value := 5 } }
                else if s = "Y" then some { net := { value := 2 } } else none
     let Z : PositionsDict String :=
       fun s => if s = "Z" then some { net := { value := 7 } } else none
     (X.add Y).add Z = X.add (Y.add Z) ∧
     X.add PositionsDict.empty = X ∧
     PositionsDict.empty.add X = X ∧
     X.add Y = Y.add X ∧
     X.get "missing" = LongShortNumbers.zero) :=
  c4_position_ledger_comm_monoid _ _ _ "missing" (by decide)

/-- C5: set_decimals keeps the target scale; scaling up multiplies the
value exactly by the scale gap; scaling down replaces the value by the
quotient of the value by 10 ^ (decimals - target) rounded half to even
(characterized: the chosen value is within half a unit of the true
quotient and is even on ties, which determines it uniquely). -/
theorem c5_set_decimals_rounding (n : Number) (t : Nat) :
    (n.set_decimals t).decimals = t ∧
    (n.decimals < t →
      (n.set_decimals t).value = n.value * 10 ^ (t - n.decimals)) ∧
    (t ≤ n.decimals →
      2 * (n.value - (n.set_decimals t).value * 10 ^ (n.decimals - t))
        ≤ 10 ^ (n.decimals - t) ∧
      -(10 ^ (n.decimals - t) : Int)
        ≤ 2 * (n.value - (n.set_decimals t).value * 10 ^ (n.decimals - t)) ∧
      ((2 * (n.value - (n.set_decimals t).value * 10 ^ (n.decimals - t))
          = 10 ^ (n.decimals - t) ∨
        2 * (n.value - (n.set_decimals t).value * 10 ^ (n.decimals - t))
          = -(10 ^ (n.decimals - t) : Int)) →
        (n.set_decimals t).value % 2 = 0)) := by
  refine ⟨Number.set_decimals_decimals n t, fun hup => ?_, fun hdown => ?_⟩
  · unfold Number.set_decimals
    rw [if_neg (by omega)]
  · rw [Number.set_decimals_down_value n t hdown]
    exact pyRoundQ_char n.value (n.decimals - t)

/-- Witness for C5: 1.5 (value 15, decimals 1) rescaled to 0 decimals
rounds half to even, and 0.5 rescaled up to 2 decimals is exact. -/
theorem c5_witness :
    ((Number.mk 15 1).set_decimals 0).decimals = 0 ∧
    2 * ((15:Int) - ((Number.mk 15 1).set_decimals 0).value * 10 ^ (1 - 0))
      ≤ 10 ^ (1 - 0) ∧
    ((Number.mk 5 1).set_decimals 2).value = 5 * 10 ^ (2 - 1) := by
  refine ⟨(c5_set_decimals_rounding ⟨15, 1⟩ 0).1,
          ((c5_set_decimals_rounding ⟨15, 1⟩ 0).2.2 (by decide)).1,
          (c5_set_decimals_rounding ⟨5, 1⟩ 2).2.1 (by decide)⟩

/-- C6: rescaling up by k decimals and back down restores the original
Number (no rounding loss can occur, so in particular none occurs when no
rounding boundary is crossed); rescaling down is idempotent (a second
application of set_decimals target after a first leaves both value and
decimals unchanged); and set_decimals at the current scale is the
identity. -/
theorem c6_rescale_roundtrip_idempotent (a : Number) (k t : Nat) :
    (a.set_decimals (a.decimals + k)).set_decimals a.decimals = a ∧
    (a.set_decimals t).set_decimals t = a.set_decimals t ∧
    (a.decimals = t → a.set_decimals t = a) := by
  refine ⟨?_, ?_, fun h => h ▸ Number.set_decimals_self a⟩
  · rcases Nat.eq_zero_or_pos k with hk | hk
    · subst hk
      rw [Nat.add_zero, Number.set_decimals_self, Number.set_decimals_self]
    · rcases a with ⟨v, d⟩
      have hup : (Number.mk v d).set_decimals (d + k) =
          { value := v * 10 ^ (d + k - d), decimals := d + k } := by
        unfold Number.set_decimals
        rw [if_neg (by show ¬(d + k ≤ d); omega)]
      rw [hup]
      have hdown :
          (Number.mk (v * 10 ^ (d + k - d)) (d + k)).set_decimals d =
          { value := pyRoundQ (v * 10 ^ (d + k - d)) (d + k - d),
            decimals := d } := by
        rw [Number.mk.injEq]
        exact ⟨Number.set_decimals_down_value _ d
                 (by show d ≤ d + k; omega),
               Number.set_decimals_decimals _ d⟩
      rw [hdown, pyRoundQ_exact]
  · have h5 := Number.set_decimals_self (a.set_decimals t)
    rwa [Number.set_decimals_decimals a t] at h5

/-- Witness for C6 at a concrete Number: 1.23 scaled up two places and
back, a repeated rescale of 18.888 to one decimal, and a rescale at the
current scale. -/
theorem c6_witness :
    ((Number.mk 123 2).set_decimals 4).set_decimals 2 = Number.mk 123 2 ∧
    ((Number.mk 18888 3).set_decimals 1).set_decimals 1 =
      (Number.mk 18888 3).set_decimals 1 ∧
    (Number.mk 123 2).set_decimals 2 = Number.mk 123 2 := by
  have h := c6_rescale_roundtrip_idempotent (Number.mk 123 2) 2 1
  have h2 := c6_rescale_roundtrip_idempotent (Number.mk 18888 3) 0 1
  exact ⟨h.1, h2.2.1, (c6_rescale_roundtrip_idempotent
    (Number.mk 123 2) 0 2).2.2 rfl⟩

/-! Floor division facts for multiplication and floordiv. -/

/-- Euclidean division by a positive integer computes the floor of the
rational quotient. -/
theorem ediv_pos_eq_floor (x m : Int) (hm : 0 < m) :
    x / m = ⌊(x : ℚ) / (m : ℚ)⌋ := by
  have h := Rat.floor_intCast_div_natCast x m.toNat
  have hmn : ((m.toNat : ℕ) : ℤ) = m := Int.toNat_of_nonneg hm.le
  have hq : ((m.toNat : ℕ) : ℚ) = (m : ℚ) := by exact_mod_cast hmn
  rw [hmn, hq] at h
  exact h.symm

/-- The bounds satisfied by the remainder of Int.fmod for a negative
divisor: it lies in the half-open interval (m, 0]. -/
theorem fmod_bounds_of_neg (x m : Int) (hm : m < 0) :
    m < Int.fmod x m ∧ Int.fmod x m ≤ 0 := by
  cases m with
  | ofNat n => exact absurd hm (by simp)
  | negSucc n =>
    cases x with
    | ofNat p =>
      cases p with
      | zero =>
        show Int.negSucc n < (0 : Int) ∧ (0 : Int) ≤ 0
        rw [Int.negSucc_eq]
        omega
      | succ k =>
        show Int.negSucc n < Int.subNatNat (k % (n+1)) n ∧
             Int.subNatNat (k % (n+1)) n ≤ 0
        rw [Int.subNatNat_eq_coe, Int.negSucc_eq]
        have h2 := Nat.mod_lt k (show 0 < n+1 by omega)
        omega
    | negSucc k =>
      show Int.negSucc n < -(Int.ofNat ((k+1) % (n+1))) ∧
           -(Int.ofNat ((k+1) % (n+1))) ≤ 0
      rw [Int.ofNat_eq_coe, Int.negSucc_eq]
      have h2 := Nat.mod_lt (k+1) (show 0 < n+1 by omega)
      omega

/-- C7: multiplication keeps the decimals of the first operand and its
value is the floor of the rational quotient
a.value * b.value / 10 ^ b.decimals; the first operand is authoritative
for the scale, and there are Numbers for which the two multiplication
orders produce different decimals. -/
theorem c7_mul_scale_and_floor (a b : Number) :
    (a.mul b).decimals = a.decimals ∧
    (a.mul b).value
      = ⌊((a.value * b.value : ℤ) : ℚ) / (10 : ℚ) ^ b.decimals⌋ ∧
    ∃ a2 b2 : Number, (a2.mul b2).decimals ≠ (b2.mul a2).decimals := by
  refine ⟨rfl, ?_, ⟨⟨1, 2⟩, ⟨1, 3⟩, by decide⟩⟩
  show Int.fdiv (a.value * b.value) (10 ^ b.decimals) = _
  have hm : (0:Int) < 10 ^ b.decimals := by positivity
  rw [Int.fdiv_eq_ediv _ hm.le, ediv_pos_eq_floor _ _ hm]
  norm_num

/-- C8: floor division with a non-zero divisor keeps the decimals of the
first operand and its value q is the floor quotient of
a.value * 10 ^ b.decimals by b.value, characterized by the Euclidean
identity with a remainder in the half-open interval determined by the
sign of the divisor (which determines q uniquely as the floor); division
by a zero-valued Number fails with an error rather than returning a
default. -/
theorem c8_floordiv_characterization (a b : Number) :
    (b.value = 0 → a.floordiv b = none) ∧
    (b.value ≠ 0 →
      ∃ q r : Int,
        a.floordiv b = some { value := q, decimals := a.decimals } ∧
        a.value * 10 ^ b.decimals = b.value * q + r ∧
        (0 < b.value → 0 ≤ r ∧ r < b.value) ∧
        (b.value < 0 → b.value < r ∧ r ≤ 0) ∧
        (0 < b.value →
          q = ⌊((a.value * 10 ^ b.decimals : ℤ) : ℚ) / (b.value : ℚ)⌋)) := by
  constructor
  · intro h
    unfold Number.floordiv
    rw [if_pos h]
  · intro h
    refine ⟨Int.fdiv (a.value * 10 ^ b.decimals) b.value,
            Int.fmod (a.value * 10 ^ b.decimals) b.value, ?_, ?_, ?_, ?_, ?_⟩
    · unfold Number.floordiv
      rw [if_neg h]
    · have h2 := Int.fdiv_add_fmod (a.value * 10 ^ b.decimals) b.value
      linarith
    · intro hpos
      exact ⟨Int.fmod_nonneg' _ hpos, Int.fmod_lt_of_pos _ hpos⟩
    · intro hneg
      exact fmod_bounds_of_neg _ _ hneg
    · intro hpos
      rw [Int.fdiv_eq_ediv _ hpos.le, ediv_pos_eq_floor _ _ hpos]

/-- Witness for C8: dividing by the zero Number fails, and dividing 7 by
0.3 floors 70 / 3 down to 23 with remainder 1. -/
theorem c8_witness :
    ((Number.mk 7 0).floordiv (Number.mk 0 5) = none) ∧
    (∃ q r : Int,
      (Number.mk 7 0).floordiv (Number.mk 3 1)
        = some { value := q, decimals := 0 } ∧
      (7:Int) * 10 ^ (1:Nat) = 3 * q + r ∧
      (0 < (3:Int) → 0 ≤ r ∧ r < 3) ∧
      ((3:Int) < 0 → 3 < r ∧ r ≤ 0) ∧
      (0 < (3:Int) →
        q = ⌊(((7:Int) * 10 ^ (1:Nat) : ℤ) : ℚ) / ((3:Int) : ℚ)⌋)) :=
  ⟨(c8_floordiv_characterization ⟨7, 0⟩ ⟨0, 5⟩).1 rfl,
   (c8_floordiv_characterization ⟨7, 0⟩ ⟨3, 1⟩).2 (by decide)⟩

/-! Model of the lazy price resolution engine
(src/sdk/base/readers/prices/lazy_resolver.py).

The engine runs on the single-threaded asyncio event loop, so the code
between two awaits executes atomically.  The model is a small-step
transition relation over engine states; each transition is one such
atomic slice, and the nondeterministic interleaving of transitions covers
every schedule the event loop can produce.  The aiohttp session threaded
through the real code does not influence the control flow and is elided.
The underlying price computation of a symbol (the created asyncio task
running IPriceReader.get_price) is abstracted by a task state that
completes nondeterministically with an arbitrary outcome.  The fields
contributed, snapshots and invocations are ghost instrumentation
recording which contributors have registered, the position passed to each
get_price invocation, and how many times each symbol price source was
invoked; they do not influence the dynamics. -/

/-- Errors a price computation can end in: the wait_for timeout used as
the cycle guard, a division by zero inside a source, or any other
source-specific exception identified by a numeric code, so that memoized
failures can be compared for identity. -/
inductive Err where
  | timeoutErr : Err
  | zeroDivErr : Err
  | srcErr : Nat → Err
deriving DecidableEq, Repr

/-- The outcome of a price computation. -/
inductive PRes where
  | ok : Number → PRes
  | fail : Err → PRes
deriving DecidableEq, Repr

/-- The state of the memoized task stored in LazyPriceResolver.tasks for
one symbol: still running, or terminated with an outcome. -/
inductive TaskSt where
  | pending : TaskSt
  | finished : PRes → TaskSt
deriving DecidableEq, Repr

/-- The control location of one resolve_price coroutine: suspended on the
barrier event, suspended awaiting the memoized task, or returned or
raised with an outcome. -/
inductive CPhase where
  | atBarrier : CPhase
  | awaitingTask : CPhase
  | done : PRes → CPhase
deriving DecidableEq, Repr

/-- One resolve_price(symbol) call in flight. -/
structure RCaller (σ : Type) where
  sym : σ
  phase : CPhase
deriving DecidableEq, Repr

/-- Pointwise update of a function model of a Python dict entry. -/
def updf {σ α : Type} [DecidableEq σ] (f : σ → α) (x : σ) (v : α) :
    σ → α :=
  fun y => if y = x then v else f y

/-- The state of one LazyPriceResolver instance (counter,
is_ready_to_fetch_prices, positions, tasks, results) with num_coroutines
fixed to n, together with its resolve_price callers and the ghost
instrumentation. -/
structure RState (σ : Type) (n : Nat) where
  contributed : Finset (Fin n)
  counter : Nat
  eventSet : Bool
  positions : PositionsDict σ
  tasks : σ → Option TaskSt
  snapshots : σ → Option LongShortNumbers
  invocations : σ → Nat
  results : σ → Option Number
  callers : List (RCaller σ)

/-- The state right after LazyPriceResolver.__init__. -/
def RState.init (σ : Type) (n : Nat) : RState σ n :=
  { contributed := ∅
    counter := 0
    eventSet := false
    positions := PositionsDict.empty
    tasks := fun _ => none
    snapshots := fun _ => none
    invocations := fun _ => 0
    results := fun _ => none
    callers := [] }

/-- One atomic step of the engine and its clients.  contribs lists the
ledger each of the n contributors passes to update_positions (each
contributor registers once, as the aggregator drives them). -/
inductive RStep {σ : Type} [DecidableEq σ] {n : Nat}
    (contribs : Fin n → PositionsDict σ) :
    RState σ n → RState σ n → Prop where
  | contribute (s : RState σ n) (i : Fin n) (hi : i ∉ s.contributed) :
      RStep contribs s
        { s with contributed := insert i s.contributed,
                 counter := s.counter + 1,
                 positions := s.positions.add (contribs i),
                 eventSet := if s.counter + 1 = n then true else s.eventSet }
  | spawn (s : RState σ n) (x : σ) :
      RStep contribs s
        { s with callers := s.callers ++ [⟨x, CPhase.atBarrier⟩] }
  | passBarrierNew (s : RState σ n) (k : Nat) (c : RCaller σ)
      (hk : s.callers.get? k = some c) (hph : c.phase = CPhase.atBarrier)
      (hev : s.eventSet = true) (htask : s.tasks c.sym = none) :
      RStep contribs s
        { s with tasks := updf s.tasks c.sym (some TaskSt.pending),
                 snapshots := updf s.snapshots c.sym
                   (some (s.positions.get c.sym)),
                 invocations := updf s.invocations c.sym
                   (s.invocations c.sym + 1),
                 callers := s.callers.set k ⟨c.sym, CPhase.awaitingTask⟩ }
  | passBarrierJoin (s : RState σ n) (k : Nat) (c : RCaller σ)
      (t : TaskSt)
      (hk : s.callers.get? k = some c) (hph : c.phase = CPhase.atBarrier)
      (hev : s.eventSet = true) (htask : s.tasks c.sym = some t) :
      RStep contribs s
        { s with callers := s.callers.set k ⟨c.sym, CPhase.awaitingTask⟩ }
  | finishTask (s : RState σ n) (x : σ) (r : PRes)
      (hx : s.tasks x = some TaskSt.pending) :
      RStep contribs s
        { s with tasks := updf s.tasks x (some (TaskSt.finished r)) }
  | observe (s : RState σ n) (k : Nat) (c : RCaller σ) (r : PRes)
      (hk : s.callers.get? k = some c)
      (hph : c.phase = CPhase.awaitingTask)
      (ht : s.tasks c.sym = some (TaskSt.finished r)) :
      RStep contribs s
        { s with callers := s.callers.set k ⟨c.sym, CPhase.done r⟩,
                 results := match r with
                   | PRes.ok v => updf s.results c.sym (some v)
                   | PRes.fail _ => s.results }

/-- Reachability of an engine state from the freshly constructed
engine. -/
def Reaches {σ : Type} [DecidableEq σ] {n : Nat}
    (contribs : Fin n → PositionsDict σ) (s : RState σ n) : Prop :=
  Relation.ReflTransGen (RStep contribs) (RState.init σ n) s

/-- The inductive invariant of the engine. -/
def EngineInv {σ : Type} [DecidableEq σ] {n : Nat}
    (contribs : Fin n → PositionsDict σ) (s : RState σ n) : Prop :=
  s.counter = s.contributed.card ∧
  s.positions = ∑ i ∈ s.contributed, contribs i ∧
  (s.eventSet = true → s.contributed = Finset.univ) ∧
  (∀ x, s.tasks x ≠ none → s.eventSet = true) ∧
  (∀ x, s.invocations x = if (s.tasks x).isSome then 1 else 0) ∧
  (∀ x p, s.snapshots x = some p →
    p = (∑ i : Fin n, contribs i).get x) ∧
  (∀ c ∈ s.callers, ∀ r, c.phase = CPhase.done r →
    s.tasks c.sym = some (TaskSt.finished r))

theorem engineInv_init {σ : Type} [DecidableEq σ] {n : Nat}
    (contribs : Fin n → PositionsDict σ) :
    EngineInv contribs (RState.init σ n) := by
  refine ⟨rfl, ?_, ?_, ?_, ?_, ?_, ?_⟩
  · show PositionsDict.empty = ∑ i ∈ (∅ : Finset (Fin n)), contribs i
    rw [Finset.sum_empty, PositionsDict.zero_eq]
  · intro h
    exact absurd h (by simp [RState.init])
  · intro x hx
    exact absurd rfl hx
  · intro x
    simp [RState.init]
  · intro x p hp
    cases hp
  · intro c hc
    cases hc

theorem engineInv_step {σ : Type} [DecidableEq σ] {n : Nat}
    {contribs : Fin n → PositionsDict σ} {s s2 : RState σ n}
    (hI : EngineInv contribs s) (hstep : RStep contribs s s2) :
    EngineInv contribs s2 := by
  obtain ⟨h1, h2, h3, h4, h5, h6, h7⟩ := hI
  cases hstep with
  | contribute i hi =>
      refine ⟨?_, ?_, ?_, ?_, h5, h6, h7⟩
      · show s.counter + 1 = (insert i s.contributed).card
        rw [Finset.card_insert_of_not_mem hi, h1]
      · show s.positions.add (contribs i)
          = ∑ j ∈ insert i s.contributed, contribs j
        rw [Finset.sum_insert hi, h2, ← PositionsDict.hAdd_eq]
        exact add_comm _ _
      · intro hev
        by_cases hn : s.counter + 1 = n
        · apply Finset.eq_univ_of_card
          rw [Finset.card_insert_of_not_mem hi, ← h1, Fintype.card_fin]
          exact hn
        · have hev2 : (if s.counter + 1 = n then true else s.eventSet)
              = true := hev
          rw [if_neg hn] at hev2
          exact absurd (Finset.mem_univ i) (h3 hev2 ▸ hi)
      · intro x hx
        have hev := h4 x hx
        show (if s.counter + 1 = n then true else s.eventSet) = true
        by_cases hn : s.counter + 1 = n
        · rw [if_pos hn]
        · rw [if_neg hn]
          exact hev
  | spawn x =>
      refine ⟨h1, h2, h3, h4, h5, h6, ?_⟩
      intro c hc r hph
      rcases List.mem_append.mp hc with hmem | hmem
      · exact h7 c hmem r hph
      · have hcx : c = ⟨x, CPhase.atBarrier⟩ := by simpa using hmem
        rw [hcx] at hph
        cases hph
  | passBarrierNew k c hk hph hev htask =>
      refine ⟨h1, h2, h3, ?_, ?_, ?_, ?_⟩
      · intro x hx
        exact hev
      · intro x
        by_cases hxc : x = c.sym
        · subst hxc
          simp [updf, h5, htask]
        · simp [updf, hxc, h5]
      · intro x p hp
        by_cases hxc : x = c.sym
        · subst hxc
          simp only [updf, if_pos rfl] at hp
          have hpp := Option.some.inj hp
          rw [← hpp, h2, h3 hev]
        · simp only [updf, if_neg hxc] at hp
          exact h6 x p hp
      · intro c2 hc2 r hph2
        rcases List.mem_or_eq_of_mem_set hc2 with hmem | hmem
        · have hold := h7 c2 hmem r hph2
          by_cases hxc : c2.sym = c.sym
          · rw [hxc, htask] at hold
            cases hold
          · show updf s.tasks c.sym (some TaskSt.pending) c2.sym
              = some (TaskSt.finished r)
            simp [updf, hxc, hold]
        · rw [hmem] at hph2
          cases hph2
  | passBarrierJoin k c t hk hph hev htask =>
      refine ⟨h1, h2, h3, h4, h5, h6, ?_⟩
      intro c2 hc2 r hph2
      rcases List.mem_or_eq_of_mem_set hc2 with hmem | hmem
      · exact h7 c2 hmem r hph2
      · rw [hmem] at hph2
        cases hph2
  | finishTask x r hx =>
      refine ⟨h1, h2, h3, ?_, ?_, h6, ?_⟩
      · intro y hy
        by_cases hyx : y = x
        · exact h4 x (by rw [hx]; simp)
        · apply h4 y
          simpa [updf, hyx] using hy
      · intro y
        by_cases hyx : y = x
        · subst hyx
          simp [updf, h5, hx]
        · simp [updf, hyx, h5]
      · intro c2 hc2 r2 hph2
        have hold := h7 c2 hc2 r2 hph2
        by_cases hxc : c2.sym = x
        · rw [hxc, hx] at hold
          exact absurd (Option.some.inj hold) (by simp)
        · simp [updf, hxc, hold]
  | observe k c r hk hph ht =>
      refine ⟨h1, h2, h3, h4, h5, h6, ?_⟩
      intro c2 hc2 r2 hph2
      rcases List.mem_or_eq_of_mem_set hc2 with hmem | hmem
      · exact h7 c2 hmem r2 hph2
      · rw [hmem] at hph2
        have hr := CPhase.done.inj hph2
        rw [hmem]
        show s.tasks c.sym = some (TaskSt.finished r2)
        rw [← hr]
        exact ht

/-- Every reachable engine state satisfies the invariant. -/
theorem engineInv_reachable {σ : Type} [DecidableEq σ] {n : Nat}
    {contribs : Fin n → PositionsDict σ} {s : RState σ n}
    (h : Reaches contribs s) : EngineInv contribs s := by
  induction h with
  | refl => exact engineInv_init contribs
  | tail hr hstep ih => exact engineInv_step ih hstep

/-- Once a task has terminated with an error, one engine step keeps the
memoized failure in place and never invokes the price source again. -/
theorem tasks_failed_absorbing_step {σ : Type} [DecidableEq σ] {n : Nat}
    {contribs : Fin n → PositionsDict σ} {s s2 : RState σ n}
    (hstep : RStep contribs s s2) (x : σ) (e : Err)
    (hx : s.tasks x = some (TaskSt.finished (PRes.fail e))) :
    s2.tasks x = some (TaskSt.finished (PRes.fail e)) ∧
    s2.invocations x = s.invocations x := by
  cases hstep with
  | contribute i hi => exact ⟨hx, rfl⟩
  | spawn y => exact ⟨hx, rfl⟩
  | passBarrierNew k c hk hph hev htask =>
      by_cases hxc : x = c.sym
      · rw [hxc, htask] at hx
        cases hx
      · constructor
        · show updf s.tasks c.sym (some TaskSt.pending) x = _
          simp [updf, hxc, hx]
        · show updf s.invocations c.sym (s.invocations c.sym + 1) x = _
          simp [updf, hxc]
  | passBarrierJoin k c t hk hph hev htask => exact ⟨hx, rfl⟩
  | finishTask y r hy =>
      by_cases hxy : x = y
      · rw [hxy, hy] at hx
        exact absurd (Option.some.inj hx) (by simp)
      · constructor
        · show updf s.tasks y (some (TaskSt.finished r)) x = _
          simp [updf, hxy, hx]
        · rfl
  | observe k c r hk hph ht => exact ⟨hx, rfl⟩

/-- Once a task has terminated with an error, any number of further engine
steps keeps the memoized failure in place and never invokes the price
source again. -/
theorem tasks_failed_absorbing {σ : Type} [DecidableEq σ] {n : Nat}
    {contribs : Fin n → PositionsDict σ} {s s2 : RState σ n}
    (h : Relation.ReflTransGen (RStep contribs) s s2) (x : σ) (e : Err)
    (hx : s.tasks x = some (TaskSt.finished (PRes.fail e))) :
    s2.tasks x = some (TaskSt.finished (PRes.fail e)) ∧
    s2.invocations x = s.invocations x := by
  induction h with
  | refl => exact ⟨hx, rfl⟩
  | tail hr hstep ih =>
      obtain ⟨ha, hb⟩ := ih
      obtain ⟨hc, hd⟩ := tasks_failed_absorbing_step hstep x e ha
      exact ⟨hc, hd.trans hb⟩

/-- C1: for every engine instance, however many resolve_price calls run
concurrently and whenever they arrive, each symbol's price source is
invoked at most once, every caller that returned a price did so from the
single memoized task of its symbol, and any two successful callers for
the same symbol obtained the same price. -/
theorem c1_price_source_invoked_once {σ : Type} [DecidableEq σ]
    {n : Nat} (contribs : Fin n → PositionsDict σ) (s : RState σ n)
    (h : Reaches contribs s) :
    (∀ x, s.invocations x ≤ 1) ∧
    (∀ c ∈ s.callers, ∀ v, c.phase = CPhase.done (PRes.ok v) →
      s.tasks c.sym = some (TaskSt.finished (PRes.ok v))) ∧
    (∀ c ∈ s.callers, ∀ c2 ∈ s.callers, ∀ v v2,
      c.sym = c2.sym → c.phase = CPhase.done (PRes.ok v) →
      c2.phase = CPhase.done (PRes.ok v2) → v = v2) := by
  obtain ⟨h1, h2, h3, h4, h5, h6, h7⟩ := engineInv_reachable h
  refine ⟨?_, ?_, ?_⟩
  · intro x
    rw [h5 x]
    split <;> omega
  · intro c hc v hph
    exact h7 c hc _ hph
  · intro c hc c2 hc2 v v2 hsym hph hph2
    have e1 := h7 c hc _ hph
    have e2 := h7 c2 hc2 _ hph2
    rw [hsym] at e1
    have e3 := e1.symm.trans e2
    exact PRes.ok.inj (TaskSt.finished.inj (Option.some.inj e3))

/-- C2: no price source is ever invoked before all n contributors have
registered their positions (a created task implies every contributor is
in, i.e. the counter reached n), and the Directional Position passed to a
source is the one aggregated over all n contributions. -/
theorem c2_barrier_and_aggregation {σ : Type} [DecidableEq σ]
    {n : Nat} (contribs : Fin n → PositionsDict σ) (s : RState σ n)
    (h : Reaches contribs s) :
    (∀ x, s.tasks x ≠ none → s.contributed = Finset.univ) ∧
    (∀ x, s.tasks x ≠ none → s.counter = n) ∧
    (∀ x p, s.snapshots x = some p →
      p = (∑ i : Fin n, contribs i).get x) := by
  obtain ⟨h1, h2, h3, h4, h5, h6, h7⟩ := engineInv_reachable h
  refine ⟨fun x hx => h3 (h4 x hx), fun x hx => ?_, h6⟩
  rw [h1, h3 (h4 x hx), Finset.card_univ, Fintype.card_fin]

/-- C10: once the memoized computation for a symbol has terminated with an
error, the engine never invokes that symbol's price source again, the
stored failure is permanent, and every caller for that symbol that
completes from then on raises exactly the memoized failure (none can
complete successfully). -/
theorem c10_failures_memoized {σ : Type} [DecidableEq σ]
    {n : Nat} (contribs : Fin n → PositionsDict σ) (s s2 : RState σ n)
    (x : σ) (e : Err)
    (h : Reaches contribs s)
    (hx : s.tasks x = some (TaskSt.finished (PRes.fail e)))
    (h2 : Relation.ReflTransGen (RStep contribs) s s2) :
    s2.tasks x = some (TaskSt.finished (PRes.fail e)) ∧
    s2.invocations x = s.invocations x ∧
    (∀ c ∈ s2.callers, c.sym = x → ∀ r, c.phase = CPhase.done r →
      r = PRes.fail e) := by
  obtain ⟨ha, hb⟩ := tasks_failed_absorbing h2 x e hx
  refine ⟨ha, hb, ?_⟩
  intro c hc hsym r hph
  obtain ⟨_, _, _, _, _, _, h7⟩ := engineInv_reachable (h.trans h2)
  have hcr := h7 c hc r hph
  rw [hsym, ha] at hcr
  exact (TaskSt.finished.inj (Option.some.inj hcr)).symm

/-! A concrete execution of the engine used by the witnesses: two
contributors (A holding X:10, B holding X:5 and Y:2), a first caller that
creates the task for X, the task failing, and a second caller that joins
the memoized task and observes the memoized failure. -/

/-- The two contributions of the witness scenario. -/
def wContribs : Fin 2 → PositionsDict String :=
  fun i =>
    if i = 0 then
      fun s => if s = "X" then some { net := { value := 10 } } else none
    else
      fun s => if s = "X" then some { net := { value := 5 } }
               else if s = "Y" then some { net := { value := 2 } } else none

def w0 : RState String 2 := RState.init String 2

def w1 : RState String 2 :=
  { w0 with contributed := insert 0 w0.contributed,
            counter := w0.counter + 1,
            positions := w0.positions.add (wContribs 0),
            eventSet := if w0.counter + 1 = 2 then true else w0.eventSet }

def w2 : RState String 2 :=
  { w1 with contributed := insert 1 w1.contributed,
            counter := w1.counter + 1,
            positions := w1.positions.add (wContribs 1),
            eventSet := if w1.counter + 1 = 2 then true else w1.eventSet }

def w3 : RState String 2 :=
  { w2 with callers := w2.callers ++ [⟨"X", CPhase.atBarrier⟩] }

def w4 : RState String 2 :=
  { w3 with tasks := updf w3.tasks "X" (some TaskSt.pending),
            snapshots := updf w3.snapshots "X" (some (w3.positions.get "X")),
            invocations := updf w3.invocations "X" (w3.invocations "X" + 1),
            callers := w3.callers.set 0 ⟨"X", CPhase.awaitingTask⟩ }

def w5 : RState String 2 :=
  { w4 with tasks := updf w4.tasks "X"
              (some (TaskSt.finished (PRes.fail (Err.srcErr 7)))) }

def w6 : RState String 2 :=
  { w5 with callers := w5.callers ++ [⟨"X", CPhase.atBarrier⟩] }

def w7 : RState String 2 :=
  { w6 with callers := w6.callers.set 1 ⟨"X", CPhase.awaitingTask⟩ }

def w8 : RState String 2 :=
  { w7 with callers := w7.callers.set 1
              ⟨"X", CPhase.done (PRes.fail (Err.srcErr 7))⟩,
            results := w7.results }

theorem wreach5 : Reaches wContribs w5 :=
  Relation.ReflTransGen.tail
    (Relation.ReflTransGen.tail
      (Relation.ReflTransGen.tail
        (Relation.ReflTransGen.tail
          (Relation.ReflTransGen.tail Relation.ReflTransGen.refl
            (RStep.contribute w0 0 (by decide)))
          (RStep.contribute w1 1 (by decide)))
        (RStep.spawn w2 "X"))
      (RStep.passBarrierNew w3 0 ⟨"X", CPhase.atBarrier⟩ rfl rfl
        (by decide) rfl))
    (RStep.finishTask w4 "X" (PRes.fail (Err.srcErr 7)) (by decide))

theorem wreach58 : Relation.ReflTransGen (RStep wContribs) w5 w8 :=
  Relation.ReflTransGen.tail
    (Relation.ReflTransGen.tail
      (Relation.ReflTransGen.tail Relation.ReflTransGen.refl
        (RStep.spawn w5 "X"))
      (RStep.passBarrierJoin w6 1 ⟨"X", CPhase.atBarrier⟩
        (TaskSt.finished (PRes.fail (Err.srcErr 7))) (by decide) rfl
        (by decide) (by decide)))
    (RStep.observe w7 1 ⟨"X", CPhase.awaitingTask⟩
      (PRes.fail (Err.srcErr 7)) (by decide) rfl (by decide))

theorem wreach8 : Reaches wContribs w8 :=
  Relation.ReflTransGen.trans wreach5 wreach58

/-- Witness for C1: in the concrete two-caller execution the price source
of X was invoked exactly once although two resolve_price calls for X
arrived, and Y's source was never invoked. -/
theorem c1_witness :
    w8.invocations "X" ≤ 1 ∧ w8.invocations "Y" ≤ 1 ∧
    w8.invocations "X" = 1 ∧ w8.callers.length = 2 := by
  have h := c1_price_source_invoked_once wContribs w8 wreach8
  exact ⟨h.1 "X", h.1 "Y", by decide, by decide⟩

/-- Witness for C2: in the concrete execution the task for X was created
only after both contributors registered (the counter reached 2), and the
position passed to the source aggregates X:10 and X:5 to 15. -/
theorem c2_witness :
    w8.contributed = Finset.univ ∧ w8.counter = 2 ∧
    w8.snapshots "X" = some { net := { value := 15 } } ∧
    ({ net := { value := 15 } } : LongShortNumbers)
      = (∑ i : Fin 2, wContribs i).get "X" := by
  have h := c2_barrier_and_aggregation wContribs w8 wreach8
  refine ⟨h.1 "X" (by decide), h.2.1 "X" (by decide), by decide, ?_⟩
  exact h.2.2 "X" _ (by decide)

/-- Witness for C10: in the concrete execution the task for X failed, the
failure is still memoized three steps later, no further invocation of the
source happened, and the second caller ended with exactly the memoized
error. -/
theorem c10_witness :
    w8.tasks "X" = some (TaskSt.finished (PRes.fail (Err.srcErr 7))) ∧
    w8.invocations "X" = w5.invocations "X" ∧
    w8.callers.get? 1
      = some ⟨"X", CPhase.done (PRes.fail (Err.srcErr 7))⟩ := by
  have h := c10_failures_memoized wContribs w5 w8 "X" (Err.srcErr 7)
    wreach5 (by decide) wreach58
  exact ⟨h.1, h.2.1, by decide⟩

/-! Timed, deterministic model of the engine for the timeout guard and
the aggregator convenience operations
(src/sdk/base/readers/prices/lazy_resolver.py and
src/sdk/base/readers/aggregator/aggregator.py).

Here the price sources are given behaviour: a source either returns a
constant price or awaits the engine price of one quote symbol and maps
it, which is exactly the shape that produces the circular quote
dependency of the claims.  Time is discrete: asyncio.wait_for(task, 10)
becomes a recorded deadline clock + 10, and the event loop advances the
clock only when no coroutine can make progress, firing every due timeout.
Cancellation of the still-pending task by a timed-out wait_for is not
modelled: a timeout merely makes the waiter fail, which does not affect
the claims below (every waiter fails with the timeout error either way).
Python dicts that the code iterates or inserts into are association
lists here, preserving insertion order. -/

/-- The behaviour of one Price Source (IPriceReader.get_price): either it
returns a price directly, or it resolves the price of a quote symbol
through the engine handle it was given and maps the quote price to its
own price. -/
inductive SourceSpec (σ : Type) where
  | pureP : Number → SourceSpec σ
  | quoteIn : σ → (Number → Number) → SourceSpec σ

/-- The coroutine state of the memoized asyncio task of one symbol:
created but not yet run, suspended in the inner resolve_price awaiting
the quote symbol's task under a wait_for deadline, or terminated. -/
inductive TTask (σ : Type) where
  | ready : TTask σ
  | waitingDep : σ → Nat → (Number → Number) → TTask σ
  | finishedT : PRes → TTask σ

/-- The control state of one top-level resolve_price call: just arrived,
suspended in wait_for on its symbol's task with a deadline, or
returned or raised. -/
inductive TPhase where
  | started : TPhase
  | waitingT : Nat → TPhase
  | doneT : PRes → TPhase
deriving DecidableEq, Repr

/-- One top-level resolve_price call in the timed model. -/
structure TCaller (σ : Type) where
  sym : σ
  phase : TPhase
deriving DecidableEq, Repr

/-- Association list lookup, the model of a Python dict read. -/
def alookup {σ α : Type} [DecidableEq σ] : List (σ × α) → σ → Option α
  | [], _ => none
  | (k, v) :: rest, x => if x = k then some v else alookup rest x

/-- Association list update of an existing key. -/
def aset {σ α : Type} [DecidableEq σ] : List (σ × α) → σ → α → List (σ × α)
  | [], _, _ => []
  | (k, v) :: rest, x, nv =>
      if x = k then (k, nv) :: rest else (k, v) :: aset rest x nv

/-- Full state of one LazyPriceResolver in the timed model, with the
event loop clock. -/
structure TState (σ : Type) where
  clock : Nat
  counter : Nat
  num : Nat
  eventSet : Bool
  positions : PositionsDict σ
  srcs : σ → SourceSpec σ
  tasks : List (σ × TTask σ)
  results : List (σ × Number)
  callers : List (TCaller σ)

/-- LazyPriceResolver.__init__(price_readers, num_coroutines). -/
def TState.init {σ : Type} (srcs : σ → SourceSpec σ) (num : Nat) :
    TState σ :=
  { clock := 0, counter := 0, num := num, eventSet := false,
    positions := PositionsDict.empty, srcs := srcs, tasks := [],
    results := [], callers := [] }

/-- LazyPriceResolver.update_positions: merge the ledger, bump the
counter, set the barrier event when the counter reaches
num_coroutines. -/
def TState.update_positions {σ : Type} (s : TState σ)
    (p : PositionsDict σ) : TState σ :=
  { s with positions := s.positions.add p,
           counter := s.counter + 1,
           eventSet := if s.counter + 1 = s.num then true else s.eventSet }

/-- Launch one resolve_price call per listed symbol (the asyncio.gather
fan-out of resolve_prices and of the aggregator conveniences). -/
def TState.spawnCallers {σ : Type} (s : TState σ) (syms : List σ) :
    TState σ :=
  { s with callers := s.callers ++ syms.map (fun x => ⟨x, TPhase.started⟩) }

/-- Fire the first due inner wait_for timeout among the tasks: the inner
resolve_price raises TimeoutError, which terminates the source coroutine
with that error. -/
def fireTaskTimeout {σ : Type} (clock : Nat) :
    List (σ × TTask σ) → Option (List (σ × TTask σ))
  | [] => none
  | (k, TTask.waitingDep dep dl mk) :: rest =>
      if dl ≤ clock then
        some ((k, TTask.finishedT (PRes.fail Err.timeoutErr)) :: rest)
      else
        (fireTaskTimeout clock rest).map
          (fun r2 => (k, TTask.waitingDep dep dl mk) :: r2)
  | e :: rest => (fireTaskTimeout clock rest).map (fun r2 => e :: r2)

/-- Fire the first due wait_for timeout among the top-level callers: that
resolve_price call raises TimeoutError. -/
def fireCallerTimeout {σ : Type} (clock : Nat) :
    List (TCaller σ) → Option (List (TCaller σ))
  | [] => none
  | ⟨x, TPhase.waitingT dl⟩ :: rest =>
      if dl ≤ clock then
        some (⟨x, TPhase.doneT (PRes.fail Err.timeoutErr)⟩ :: rest)
      else
        (fireCallerTimeout clock rest).map
          (fun r2 => ⟨x, TPhase.waitingT dl⟩ :: r2)
  | c :: rest => (fireCallerTimeout clock rest).map (fun r2 => c :: r2)

/-- Resume the first caller suspended on the (open) barrier: it creates
the task for its symbol when none exists yet, then suspends in
wait_for(task, 10).  The resume, the membership test, the task creation
and the entry into wait_for happen in one atomic slice, exactly as in
resolve_price between its two awaits. -/
def startCaller {σ : Type} [DecidableEq σ] (clock : Nat)
    (tasks : List (σ × TTask σ)) :
    List (TCaller σ) → Option (List (TCaller σ) × List (σ × TTask σ))
  | [] => none
  | ⟨x, TPhase.started⟩ :: rest =>
      some (⟨x, TPhase.waitingT (clock + 10)⟩ :: rest,
            if (alookup tasks x).isSome then tasks
            else tasks ++ [(x, TTask.ready)])
  | c :: rest =>
      (startCaller clock tasks rest).map (fun pr => (c :: pr.1, pr.2))

/-- The first created task whose coroutine has not started running. -/
def firstReady {σ : Type} : List (σ × TTask σ) → Option σ
  | [] => none
  | (k, TTask.ready) :: _ => some k
  | _ :: rest => firstReady rest

/-- The first task suspended on a quote dependency whose dependency task
has terminated: on success the source maps the quote price to its own
result, on failure the inner await re-raises and the source coroutine
terminates with that error. -/
def firstPropagable {σ : Type} [DecidableEq σ]
    (all : List (σ × TTask σ)) :
    List (σ × TTask σ) → Option (σ × PRes)
  | [] => none
  | (k, TTask.waitingDep dep _ mk) :: rest =>
      match alookup all dep with
      | some (TTask.finishedT (PRes.ok v)) => some (k, PRes.ok (mk v))
      | some (TTask.finishedT (PRes.fail e)) => some (k, PRes.fail e)
      | _ => firstPropagable all rest
  | _ :: rest => firstPropagable all rest

/-- Resume the first caller whose awaited task has terminated: on success
the result is recorded in results and returned, on failure wait_for
re-raises the task's memoized error and nothing is recorded. -/
def observeCaller {σ : Type} [DecidableEq σ]
    (tasks : List (σ × TTask σ)) :
    List (TCaller σ) →
      Option (List (TCaller σ) × Option (σ × Number))
  | [] => none
  | ⟨x, TPhase.waitingT dl⟩ :: rest =>
      match alookup tasks x with
      | some (TTask.finishedT r) =>
          some (⟨x, TPhase.doneT r⟩ :: rest,
                match r with
                | PRes.ok v => some (x, v)
                | PRes.fail _ => none)
      | _ =>
          (observeCaller tasks rest).map
            (fun pr => (⟨x, TPhase.waitingT dl⟩ :: pr.1, pr.2))
  | c :: rest =>
      (observeCaller tasks rest).map (fun pr => (c :: pr.1, pr.2))

/-- One deterministic event loop step: due timeouts fire first, then one
suspended coroutine makes progress; when nothing can run the loop
advances the clock by one unit.  Tasks exist only after the barrier has
opened (they are created by callers that passed it), so the inner barrier
wait of a quote source never blocks. -/
def step {σ : Type} [DecidableEq σ] (s : TState σ) : TState σ :=
  match fireTaskTimeout s.clock s.tasks with
  | some tasks2 => { s with tasks := tasks2 }
  | none =>
  match fireCallerTimeout s.clock s.callers with
  | some cs2 => { s with callers := cs2 }
  | none =>
  match (if s.eventSet then startCaller s.clock s.tasks s.callers
         else none) with
  | some (cs2, tasks2) => { s with callers := cs2, tasks := tasks2 }
  | none =>
  match firstReady s.tasks with
  | some k =>
      match s.srcs k with
      | SourceSpec.pureP p =>
          { s with tasks := aset s.tasks k (TTask.finishedT (PRes.ok p)) }
      | SourceSpec.quoteIn dep mk =>
          let t2 := aset s.tasks k (TTask.waitingDep dep (s.clock + 10) mk)
          { s with tasks := if (alookup s.tasks dep).isSome then t2
                            else t2 ++ [(dep, TTask.ready)] }
  | none =>
  match firstPropagable s.tasks s.tasks with
  | some (k, r) => { s with tasks := aset s.tasks k (TTask.finishedT r) }
  | none =>
  match observeCaller s.tasks s.callers with
  | some (cs2, resOpt) =>
      { s with callers := cs2,
               results := match resOpt with
                 | some e => s.results ++ [e]
                 | none => s.results }
  | none => { s with clock := s.clock + 1 }

/-- Every top-level call has returned or raised. -/
def allDone {σ : Type} (s : TState σ) : Bool :=
  s.callers.all (fun c => match c.phase with
    | TPhase.doneT _ => true
    | _ => false)

/-- Run the event loop until every top-level call has terminated, with a
step budget. -/
def run {σ : Type} [DecidableEq σ] (fuel : Nat) (s : TState σ) :
    TState σ :=
  match fuel with
  | 0 => s
  | f + 1 => if allDone s then s else run f (step s)

/-- The outcome of the first resolve_price call for a symbol. -/
def callerOutcome {σ : Type} [DecidableEq σ] (s : TState σ) (x : σ) :
    Option PRes :=
  match s.callers.find? (fun c => decide (c.sym = x)) with
  | some c =>
      match c.phase with
      | TPhase.doneT r => some r
      | _ => none
  | none => none

/-- The terminal outcome of the memoized task of a symbol. -/
def taskOutcome {σ : Type} [DecidableEq σ] (s : TState σ) (x : σ) :
    Option PRes :=
  match alookup s.tasks x with
  | some (TTask.finishedT r) => some r
  | _ => none

/-- The asyncio.gather of all top-level calls: the materialized prices
when every call succeeded, otherwise the whole request fails. -/
def gather_results {σ : Type} (s : TState σ) : Option (List Number) :=
  s.callers.foldr
    (fun c acc =>
      match c.phase, acc with
      | TPhase.doneT (PRes.ok v), some l => some (v :: l)
      | _, _ => none)
    (some [])

/-- BaseAggregator.convert_units_async: construct a fresh engine over the
given price readers with the default single contributor, register the
empty position ledger, resolve both prices concurrently, and return
amount * from_price // to_price. -/
def convert_units {σ : Type} [DecidableEq σ] (srcs : σ → SourceSpec σ)
    (amount : Number) (frm tgt : σ) : Option Number :=
  let engine := (TState.init srcs 1).update_positions PositionsDict.empty
  let final := run 100 (engine.spawnCallers [frm, tgt])
  match callerOutcome final frm, callerOutcome final tgt with
  | some (PRes.ok fp), some (PRes.ok tp) =>
      Number.floordiv (amount.mul fp) tp
  | _, _ => none

/-- The two symbols of the circular quote configuration. -/
inductive CycSym where
  | A : CycSym
  | B : CycSym
deriving DecidableEq, Repr

/-- The circular configuration: the source of A quotes in B and the
source of B quotes in A, with arbitrary price maps. -/
def cyclicSrcs (g h : Number → Number) : CycSym → SourceSpec CycSym
  | CycSym.A => SourceSpec.quoteIn CycSym.B g
  | CycSym.B => SourceSpec.quoteIn CycSym.A h

/-- A report request over the cyclic configuration: a fresh one
contributor engine, the contribution registered, and resolve_price
launched for both symbols. -/
def initCyclic (g h : Number → Number) : TState CycSym :=
  ((TState.init (cyclicSrcs g h) 1).update_positions
    PositionsDict.empty).spawnCallers [CycSym.A, CycSym.B]

/-- The two symbols of the unit conversion scenario. -/
inductive CvtSym where
  | X : CvtSym
  | Y : CvtSym
deriving DecidableEq, Repr

/-- Sources that price X and Y directly (e.g. in a common quote
currency). -/
def pureSrcs (pf pt : Number) : CvtSym → SourceSpec CvtSym
  | CvtSym.X => SourceSpec.pureP pf
  | CvtSym.Y => SourceSpec.pureP pt

/-- One unfolding of run when the callers are not all finished. -/
theorem run_succ_of_not_done {σ : Type} [DecidableEq σ]
    {s s2 : TState σ} (f : Nat)
    (h1 : allDone s = false) (h2 : step s = s2) :
    run (f + 1) s = run f s2 := by
  simp [run, h1, h2]

/-- run stops as soon as every caller has finished. -/
theorem run_of_done {σ : Type} [DecidableEq σ] {s : TState σ} (f : Nat)
    (h1 : allDone s = true) : run f s = s := by
  cases f with
  | zero => rfl
  | succ f2 => simp [run, h1]

/-! The deterministic event loop run of the cyclic configuration,
state by state. -/

/-- The engine part shared by every state of the cyclic run. -/
def cycBase (g h : Number → Number) : TState CycSym :=
  (TState.init (cyclicSrcs g h) 1).update_positions PositionsDict.empty

def cyc1 (g h : Number → Number) : TState CycSym :=
  { cycBase g h with
      tasks := [(CycSym.A, TTask.ready)],
      callers := [⟨CycSym.A, TPhase.waitingT 10⟩,
                  ⟨CycSym.B, TPhase.started⟩] }

def cyc2 (g h : Number → Number) : TState CycSym :=
  { cycBase g h with
      tasks := [(CycSym.A, TTask.ready), (CycSym.B, TTask.ready)],
      callers := [⟨CycSym.A, TPhase.waitingT 10⟩,
                  ⟨CycSym.B, TPhase.waitingT 10⟩] }

def cyc3 (g h : Number → Number) : TState CycSym :=
  { cycBase g h with
      tasks := [(CycSym.A, TTask.waitingDep CycSym.B 10 g),
                (CycSym.B, TTask.ready)],
      callers := [⟨CycSym.A, TPhase.waitingT 10⟩,
                  ⟨CycSym.B, TPhase.waitingT 10⟩] }

/-- Both sources suspended on each other, clock at c. -/
def cycW (g h : Number → Number) (c : Nat) : TState CycSym :=
  { cycBase g h with
      clock := c,
      tasks := [(CycSym.A, TTask.waitingDep CycSym.B 10 g),
                (CycSym.B, TTask.waitingDep CycSym.A 10 h)],
      callers := [⟨CycSym.A, TPhase.waitingT 10⟩,
                  ⟨CycSym.B, TPhase.waitingT 10⟩] }

def cyc15 (g h : Number → Number) : TState CycSym :=
  { cycBase g h with
      clock := 10,
      tasks := [(CycSym.A, TTask.finishedT (PRes.fail Err.timeoutErr)),
                (CycSym.B, TTask.waitingDep CycSym.A 10 h)],
      callers := [⟨CycSym.A, TPhase.waitingT 10⟩,
                  ⟨CycSym.B, TPhase.waitingT 10⟩] }

def cyc16 (g h : Number → Number) : TState CycSym :=
  { cycBase g h with
      clock := 10,
      tasks := [(CycSym.A, TTask.finishedT (PRes.fail Err.timeoutErr)),
                (CycSym.B, TTask.finishedT (PRes.fail Err.timeoutErr))],
      callers := [⟨CycSym.A, TPhase.waitingT 10⟩,
                  ⟨CycSym.B, TPhase.waitingT 10⟩] }

def cyc17 (g h : Number → Number) : TState CycSym :=
  { cyc16 g h with
      callers := [⟨CycSym.A, TPhase.doneT (PRes.fail Err.timeoutErr)⟩,
                  ⟨CycSym.B, TPhase.waitingT 10⟩] }

def cyc18 (g h : Number → Number) : TState CycSym :=
  { cyc16 g h with
      callers := [⟨CycSym.A, TPhase.doneT (PRes.fail Err.timeoutErr)⟩,
                  ⟨CycSym.B, TPhase.doneT (PRes.fail Err.timeoutErr)⟩] }

/-- The full deterministic run of the cyclic configuration: both calls
and both tasks end in the timeout error, at clock 10. -/
theorem runCyclic_eq (g h : Number → Number) :
    run 40 (initCyclic g h) = cyc18 g h := by
  have hw : ∀ c, c < 10 → ∀ f,
      run (f + 1) (cycW g h c) = run f (cycW g h (c + 1)) := by
    intro c hc f
    have hnc : ¬(10 ≤ c) := by omega
    refine run_succ_of_not_done f ?_ ?_
    · simp [allDone, cycW, cycBase, TState.init, TState.update_positions]
    · simp [step, cycW, cycBase, TState.init, TState.update_positions,
            fireTaskTimeout, fireCallerTimeout, startCaller, firstReady,
            firstPropagable, observeCaller, alookup, aset, cyclicSrcs, hnc]
  calc run 40 (initCyclic g h)
      = run 39 (cyc1 g h) := by
        refine run_succ_of_not_done 39 ?_ ?_ <;>
          simp [allDone, step, initCyclic, cycBase, cyc1, TState.init,
                TState.update_positions, TState.spawnCallers,
                fireTaskTimeout, fireCallerTimeout, startCaller,
                firstReady, firstPropagable, observeCaller, alookup, aset,
                cyclicSrcs]
    _ = run 38 (cyc2 g h) := by
        refine run_succ_of_not_done 38 ?_ ?_ <;>
          simp [allDone, step, cyc1, cyc2, cycBase, TState.init,
                TState.update_positions, fireTaskTimeout,
                fireCallerTimeout, startCaller, firstReady,
                firstPropagable, observeCaller, alookup, aset, cyclicSrcs]
    _ = run 37 (cyc3 g h) := by
        refine run_succ_of_not_done 37 ?_ ?_ <;>
          simp [allDone, step, cyc2, cyc3, cycBase, TState.init,
                TState.update_positions, fireTaskTimeout,
                fireCallerTimeout, startCaller, firstReady,
                firstPropagable, observeCaller, alookup, aset, cyclicSrcs]
    _ = run 36 (cycW g h 0) := by
        refine run_succ_of_not_done 36 ?_ ?_ <;>
          simp [allDone, step, cyc3, cycW, cycBase, TState.init,
                TState.update_positions, fireTaskTimeout,
                fireCallerTimeout, startCaller, firstReady,
                firstPropagable, observeCaller, alookup, aset, cyclicSrcs]
    _ = run 35 (cycW g h 1) := hw 0 (by omega) 35
    _ = run 34 (cycW g h 2) := hw 1 (by omega) 34
    _ = run 33 (cycW g h 3) := hw 2 (by omega) 33
    _ = run 32 (cycW g h 4) := hw 3 (by omega) 32
    _ = run 31 (cycW g h 5) := hw 4 (by omega) 31
    _ = run 30 (cycW g h 6) := hw 5 (by omega) 30
    _ = run 29 (cycW g h 7) := hw 6 (by omega) 29
    _ = run 28 (cycW g h 8) := hw 7 (by omega) 28
    _ = run 27 (cycW g h 9) := hw 8 (by omega) 27
    _ = run 26 (cycW g h 10) := hw 9 (by omega) 26
    _ = run 25 (cyc15 g h) := by
        refine run_succ_of_not_done 25 ?_ ?_ <;>
          simp [allDone, step, cycW, cyc15, cycBase, TState.init,
                TState.update_positions, fireTaskTimeout,
                fireCallerTimeout, startCaller, firstReady,
                firstPropagable, observeCaller, alookup, aset, cyclicSrcs]
    _ = run 24 (cyc16 g h) := by
        refine run_succ_of_not_done 24 ?_ ?_ <;>
          simp [allDone, step, cyc15, cyc16, cycBase, TState.init,
                TState.update_positions, fireTaskTimeout,
                fireCallerTimeout, startCaller, firstReady,
                firstPropagable, observeCaller, alookup, aset, cyclicSrcs]
    _ = run 23 (cyc17 g h) := by
        refine run_succ_of_not_done 23 ?_ ?_ <;>
          simp [allDone, step, cyc16, cyc17, cycBase, TState.init,
                TState.update_positions, fireTaskTimeout,
                fireCallerTimeout, startCaller, firstReady,
                firstPropagable, observeCaller, alookup, aset, cyclicSrcs]
    _ = run 22 (cyc18 g h) := by
        refine run_succ_of_not_done 22 ?_ ?_ <;>
          simp [allDone, step, cyc17, cyc18, cyc16, cycBase, TState.init,
                TState.update_positions, fireTaskTimeout,
                fireCallerTimeout, startCaller, firstReady,
                firstPropagable, observeCaller, alookup, aset, cyclicSrcs]
    _ = cyc18 g h := by
        refine run_of_done 22 ?_
        simp [allDone, cyc18, cyc16, cycBase, TState.init,
              TState.update_positions]

/-- C3: in every configuration where the source of A quotes in B and the
source of B quotes in A (arbitrary price maps g and h), the event loop
run terminates with every resolve_price call for A and for B raising the
cycle/timeout error; both memoized computations end in the timeout error;
the failure happens at clock 10 (the 10-unit wait_for ceiling, within the
ceiling plus one unit) rather than hanging; and the enclosing gathered
report request fails with no partial result recorded. -/
theorem c3_cycle_fails_with_timeout (g h : Number → Number) :
    callerOutcome (run 40 (initCyclic g h)) CycSym.A
      = some (PRes.fail Err.timeoutErr) ∧
    callerOutcome (run 40 (initCyclic g h)) CycSym.B
      = some (PRes.fail Err.timeoutErr) ∧
    taskOutcome (run 40 (initCyclic g h)) CycSym.A
      = some (PRes.fail Err.timeoutErr) ∧
    taskOutcome (run 40 (initCyclic g h)) CycSym.B
      = some (PRes.fail Err.timeoutErr) ∧
    allDone (run 40 (initCyclic g h)) = true ∧
    (run 40 (initCyclic g h)).clock ≤ 10 + 1 ∧
    gather_results (run 40 (initCyclic g h)) = none ∧
    (run 40 (initCyclic g h)).results = [] := by
  rw [runCyclic_eq g h]
  refine ⟨?_, ?_, ?_, ?_, ?_, ?_, ?_, ?_⟩ <;>
    simp [callerOutcome, taskOutcome, allDone, gather_results, cyc18,
          cyc16, cycBase, TState.init, TState.update_positions, alookup,
          List.find?]

/-! The deterministic event loop run of the unit conversion scenario. -/

/-- The engine part shared by every state of the conversion run: the
fresh one contributor engine after the empty contribution registered. -/
def cvtBase (pf pt : Number) : TState CvtSym :=
  (TState.init (pureSrcs pf pt) 1).update_positions PositionsDict.empty

def cvt1 (pf pt : Number) : TState CvtSym :=
  { cvtBase pf pt with
      tasks := [(CvtSym.X, TTask.ready)],
      callers := [⟨CvtSym.X, TPhase.waitingT 10⟩,
                  ⟨CvtSym.Y, TPhase.started⟩] }

def cvt2 (pf pt : Number) : TState CvtSym :=
  { cvtBase pf pt with
      tasks := [(CvtSym.X, TTask.ready), (CvtSym.Y, TTask.ready)],
      callers := [⟨CvtSym.X, TPhase.waitingT 10⟩,
                  ⟨CvtSym.Y, TPhase.waitingT 10⟩] }

def cvt3 (pf pt : Number) : TState CvtSym :=
  { cvt2 pf pt with
      tasks := [(CvtSym.X, TTask.finishedT (PRes.ok pf)),
                (CvtSym.Y, TTask.ready)] }

def cvt4 (pf pt : Number) : TState CvtSym :=
  { cvt2 pf pt with
      tasks := [(CvtSym.X, TTask.finishedT (PRes.ok pf)),
                (CvtSym.Y, TTask.finishedT (PRes.ok pt))] }

def cvt5 (pf pt : Number) : TState CvtSym :=
  { cvt4 pf pt with
      results := [(CvtSym.X, pf)],
      callers := [⟨CvtSym.X, TPhase.doneT (PRes.ok pf)⟩,
                  ⟨CvtSym.Y, TPhase.waitingT 10⟩] }

def cvt6 (pf pt : Number) : TState CvtSym :=
  { cvt4 pf pt with
      results := [(CvtSym.X, pf), (CvtSym.Y, pt)],
      callers := [⟨CvtSym.X, TPhase.doneT (PRes.ok pf)⟩,
                  ⟨CvtSym.Y, TPhase.doneT (PRes.ok pt)⟩] }

/-- The full deterministic run of the conversion scenario: both pure
sources are invoked once and both calls return their prices. -/
theorem runCvt_eq (pf pt : Number) :
    run 100 ((cvtBase pf pt).spawnCallers [CvtSym.X, CvtSym.Y])
      = cvt6 pf pt := by
  calc run 100 ((cvtBase pf pt).spawnCallers [CvtSym.X, CvtSym.Y])
      = run 99 (cvt1 pf pt) := by
        refine run_succ_of_not_done 99 ?_ ?_ <;>
          simp [allDone, step, cvtBase, cvt1, TState.init,
                TState.update_positions, TState.spawnCallers,
                fireTaskTimeout, fireCallerTimeout, startCaller,
                firstReady, firstPropagable, observeCaller, alookup,
                aset, pureSrcs]
    _ = run 98 (cvt2 pf pt) := by
        refine run_succ_of_not_done 98 ?_ ?_ <;>
          simp [allDone, step, cvtBase, cvt1, cvt2, TState.init,
                TState.update_positions, fireTaskTimeout,
                fireCallerTimeout, startCaller, firstReady,
                firstPropagable, observeCaller, alookup, aset, pureSrcs]
    _ = run 97 (cvt3 pf pt) := by
        refine run_succ_of_not_done 97 ?_ ?_ <;>
          simp [allDone, step, cvtBase, cvt2, cvt3, TState.init,
                TState.update_positions, fireTaskTimeout,
                fireCallerTimeout, startCaller, firstReady,
                firstPropagable, observeCaller, alookup, aset, pureSrcs]
    _ = run 96 (cvt4 pf pt) := by
        refine run_succ_of_not_done 96 ?_ ?_ <;>
          simp [allDone, step, cvtBase, cvt2, cvt3, cvt4, TState.init,
                TState.update_positions, fireTaskTimeout,
                fireCallerTimeout, startCaller, firstReady,
                firstPropagable, observeCaller, alookup, aset, pureSrcs]
    _ = run 95 (cvt5 pf pt) := by
        refine run_succ_of_not_done 95 ?_ ?_ <;>
          simp [allDone, step, cvtBase, cvt2, cvt4, cvt5, TState.init,
                TState.update_positions, fireTaskTimeout,
                fireCallerTimeout, startCaller, firstReady,
                firstPropagable, observeCaller, alookup, aset, pureSrcs]
    _ = run 94 (cvt6 pf pt) := by
        refine run_succ_of_not_done 94 ?_ ?_ <;>
          simp [allDone, step, cvtBase, cvt2, cvt4, cvt5, cvt6,
                TState.init, TState.update_positions, fireTaskTimeout,
                fireCallerTimeout, startCaller, firstReady,
                firstPropagable, observeCaller, alookup, aset, pureSrcs]
    _ = cvt6 pf pt := by
        refine run_of_done 94 ?_
        simp [allDone, cvt6, cvt4, cvt2, cvtBase, TState.init,
              TState.update_positions]

/-- C9: convert_units on a freshly constructed one contributor engine
returns amount * price(from) // price(to) for any configured direct
prices (an error when the prices cannot be combined, exactly as the
Number floor division fails on a zero price); in particular converting
100 units of X to Y with X priced 2.0 and Y priced 4.0 yields 50. -/
theorem c9_convert_units (amount pf pt : Number) :
    convert_units (pureSrcs pf pt) amount CvtSym.X CvtSym.Y
      = Number.floordiv (amount.mul pf) pt ∧
    convert_units (pureSrcs (Number.mk 20 1) (Number.mk 40 1))
      (Number.mk 100 0) CvtSym.X CvtSym.Y = some (Number.mk 50 0) := by
  constructor
  · simp only [convert_units]
    rw [show (TState.init (pureSrcs pf pt) 1).update_positions
          PositionsDict.empty = cvtBase pf pt from rfl,
        runCvt_eq pf pt]
    simp [callerOutcome, cvt6, cvt4, cvt2, cvtBase, TState.init,
          TState.update_positions, List.find?]
  · decide

end SDKSpec
